import Mathlib

/-!
# Verification of the MxO emulator core against its specification

Shallow embedding of the byte codec (`ByteBuffer`, src/unnamed/part_009),
the spatial primitive (`LocationVector`, src/include/LocationVector.h),
the auth crypto placeholders (src/src/auth/AuthServer.cpp), the command-id
tables (src/include/MessageTypes.h), the `GameSocket` state predicates
(src/include/GameSocket.h), and — modelled from the specification, since the
transport implementation is absent from the sources — the reliable
sequencing layer of the session transport.

Bytes are modelled as `Nat` values (< 256 where it matters), byte vectors as
`List Nat`, machine-size positions as `Nat`, and C `assert` failures as
`Option.none` (fallible operations return `Option`).
-/

namespace MxoEmu

/-- `memcpy(&buf[pos], data, data.length)`: overwrite `data.length` bytes of
`buf` starting at `pos` with `data`, leaving everything else in place. -/
def overwriteAt (buf : List Nat) (pos : Nat) (data : List Nat) : List Nat :=
  buf.take pos ++ data ++ buf.drop (pos + data.length)

/-- The byte codec of src/unnamed/part_009: a growable byte vector with
independent read (`m_rpos`) and write (`m_wpos`) cursors. -/
structure ByteBuffer where
  rpos : Nat
  wpos : Nat
  buffer : List Nat
deriving DecidableEq, Repr

namespace ByteBuffer

/-- `ByteBuffer()` — the default constructor: both cursors 0, empty storage. -/
def empty : ByteBuffer := ⟨0, 0, []⟩

/-- `ByteBuffer(size_t size)` — resizes the storage to `n` zero bytes;
both cursors stay 0. -/
def ofSize (n : Nat) : ByteBuffer := ⟨0, 0, List.replicate n 0⟩

/-- `size()` — the size of the underlying storage. -/
def size (b : ByteBuffer) : Nat := b.buffer.length

/-- `remaining()` — `m_wpos > m_rpos ? m_wpos - m_rpos : 0`. -/
def remaining (b : ByteBuffer) : Nat :=
  if b.wpos > b.rpos then b.wpos - b.rpos else 0

/-- `read(byte* dest, size_t n)` — `assert(m_rpos + n <= m_buffer.size())`
(modelled as `none` on failure), then copy `n` bytes from `m_rpos` and
advance `m_rpos` by `n`. -/
def readBytes (b : ByteBuffer) (n : Nat) : Option (List Nat × ByteBuffer) :=
  if b.rpos + n ≤ b.buffer.length then
    some ((b.buffer.drop b.rpos).take n, { b with rpos := b.rpos + n })
  else none

/-- `write(const byte* src, size_t n)` — grow the storage to
`m_wpos + n` when needed (new cells zeroed by `resize`), copy the bytes at
`m_wpos`, advance `m_wpos`. -/
def writeBytes (b : ByteBuffer) (data : List Nat) : ByteBuffer :=
  let buf :=
    if b.wpos + data.length > b.buffer.length then
      b.buffer ++ List.replicate (b.wpos + data.length - b.buffer.length) 0
    else b.buffer
  { rpos := b.rpos, wpos := b.wpos + data.length,
    buffer := overwriteAt buf b.wpos data }

/-- `put(size_t pos, T value)` (here on raw bytes) —
`assert(pos + sizeof(T) <= m_buffer.size())` (modelled as `none`), then
overwrite in place; cursors untouched. -/
def put (b : ByteBuffer) (pos : Nat) (data : List Nat) : Option ByteBuffer :=
  if pos + data.length ≤ b.buffer.length then
    some { b with buffer := overwriteAt b.buffer pos data }
  else none

end ByteBuffer

/-- Little-endian byte representation of a `w`-byte unsigned value, as laid
out in memory by `memcpy` of an integral type on the (little-endian) target. -/
def toLE : Nat → Nat → List Nat
  | 0, _ => []
  | w + 1, v => v % 256 :: toLE w (v / 256)

/-- Value of a little-endian byte list. -/
def fromLE : List Nat → Nat
  | [] => 0
  | c :: cs => c + 256 * fromLE cs

namespace ByteBuffer

/-- `template<typename T> void write(T value)` at width `w`. -/
def writeT (b : ByteBuffer) (w v : Nat) : ByteBuffer :=
  b.writeBytes (toLE w v)

/-- `template<typename T> T read()` at width `w`. -/
def readT (b : ByteBuffer) (w : Nat) : Option (Nat × ByteBuffer) :=
  (b.readBytes w).map fun r => (fromLE r.1, r.2)

/-- `template<typename T> void put(size_t pos, T value)` at width `w`. -/
def putT (b : ByteBuffer) (pos w v : Nat) : Option ByteBuffer :=
  b.put pos (toLE w v)

/-- Loop body of `readString(std::string&)`: while `m_rpos < m_wpos`, read
one `char`; stop at the first NUL.  The fuel `wpos - rpos` bounds the loop;
the inner `read<char>`'s assert is modelled as `none`. -/
def readStringAux : Nat → ByteBuffer → Option (List Nat × ByteBuffer)
  | 0, b => some ([], b)
  | fuel + 1, b =>
    if b.rpos < b.wpos then
      if b.rpos + 1 ≤ b.buffer.length then
        if b.buffer.getD b.rpos 0 = 0 then
          some ([], { b with rpos := b.rpos + 1 })
        else
          (readStringAux fuel { b with rpos := b.rpos + 1 }).map
            fun r => (b.buffer.getD b.rpos 0 :: r.1, r.2)
      else none
    else some ([], b)

/-- `readString(std::string& str)` — clears `str` then reads chars until a
NUL or until the read cursor reaches the write cursor. -/
def readString (b : ByteBuffer) : Option (List Nat × ByteBuffer) :=
  readStringAux (b.wpos - b.rpos) b

/-- `writeString(const std::string&)` — for an empty string write a single
NUL; otherwise write the string's bytes then a NUL terminator. -/
def writeString (b : ByteBuffer) (s : List Nat) : ByteBuffer :=
  if s = [] then b.writeBytes [0]
  else (b.writeBytes s).writeBytes [0]

end ByteBuffer

/-! ## Auth crypto placeholders (src/src/auth/AuthServer.cpp) -/

namespace AuthServer

/-- `AuthServer::Encrypt(string)` — copies the input bytes unchanged into the
output ("placeholder" for RSA encryption); the catch branch is unreachable. -/
def Encrypt (input : List Nat) : List Nat := input

/-- `AuthServer::Decrypt(string)` — copies the input bytes unchanged into the
output ("placeholder" for RSA decryption); the catch branch is unreachable. -/
def Decrypt (input : List Nat) : List Nat := input

/-- `AuthServer::VerifyWith1024Bit(byte*, size_t, byte*, size_t)` — the try
block is `return true;` and cannot throw, so the function returns `true` on
every message/signature pair. -/
def VerifyWith1024Bit (message signature : List Nat) : Bool := true

end AuthServer

/-! ## Player command ids (src/include/MessageTypes.h, `PlayerCommandTypes`) -/

namespace PlayerCommandTypes

def CMD_READY_FOR_SPAWN : Nat := 0x01
def CMD_CHAT : Nat := 0x02
def CMD_WHISPER : Nat := 0x03
def CMD_STOP_ANIMATION : Nat := 0x04
def CMD_START_ANIMATION : Nat := 0x05
def CMD_CHANGE_MOOD : Nat := 0x06
def CMD_PERFORM_EMOTE : Nat := 0x07
def CMD_DYNAMIC_OBJ_INTERACTION : Nat := 0x08
def CMD_STATIC_OBJ_INTERACTION : Nat := 0x09
def CMD_JUMP : Nat := 0x0A
def CMD_REGION_LOADED : Nat := 0x0B
def CMD_READY_FOR_WORLD_CHANGE : Nat := 0x0C
def CMD_WHO : Nat := 0x0D
def CMD_WHERE_AM_I : Nat := 0x0E
def CMD_GET_PLAYER_DETAILS : Nat := 0x0F
def CMD_GET_BACKGROUND : Nat := 0x10
def CMD_SET_BACKGROUND : Nat := 0x11
def CMD_HARDLINE_TELEPORT : Nat := 0x12
def CMD_OBJECT_SELECTED : Nat := 0x13
def CMD_JACKOUT_REQUEST : Nat := 0x14
def CMD_JACKOUT_FINISHED : Nat := 0x15

def CMD_ABILITY_USE : Nat := 0x0100
def CMD_TRADE_REQUEST : Nat := 0x0101
def CMD_TRADE_ACCEPT : Nat := 0x0102
def CMD_TRADE_DECLINE : Nat := 0x0103
def CMD_TRADE_CANCEL : Nat := 0x0104
def CMD_TRADE_ADD_ITEM : Nat := 0x0105
def CMD_TRADE_REMOVE_ITEM : Nat := 0x0106
def CMD_TRADE_SET_INFO : Nat := 0x0107
def CMD_TRADE_CONFIRM : Nat := 0x0108
def CMD_GROUP_INVITE : Nat := 0x0109
def CMD_GROUP_ACCEPT : Nat := 0x010A
def CMD_GROUP_DECLINE : Nat := 0x010B
def CMD_GROUP_LEAVE : Nat := 0x010C
def CMD_GROUP_KICK : Nat := 0x010D
def CMD_GROUP_PROMOTE : Nat := 0x010E
def CMD_GROUP_DISBAND : Nat := 0x010F

/-- The enum's "Short commands (0x0100 - 0xFFFF)" group, in declaration
order. -/
def shortCommands : List Nat :=
  [CMD_ABILITY_USE, CMD_TRADE_REQUEST, CMD_TRADE_ACCEPT, CMD_TRADE_DECLINE,
   CMD_TRADE_CANCEL, CMD_TRADE_ADD_ITEM, CMD_TRADE_REMOVE_ITEM,
   CMD_TRADE_SET_INFO, CMD_TRADE_CONFIRM, CMD_GROUP_INVITE, CMD_GROUP_ACCEPT,
   CMD_GROUP_DECLINE, CMD_GROUP_LEAVE, CMD_GROUP_KICK, CMD_GROUP_PROMOTE,
   CMD_GROUP_DISBAND]

end PlayerCommandTypes

/-! ## GameSocket state (src/include/GameSocket.h) -/

namespace GameSocket

/-- `GameSocket::State` with the enum's numeric values 0..6. -/
inductive State where
  | STATE_INITIAL
  | STATE_HANDSHAKE
  | STATE_CONNECTED
  | STATE_WORLD_LOADING
  | STATE_IN_WORLD
  | STATE_DISCONNECTING
  | STATE_CLOSED
deriving DecidableEq, Repr

/-- The enum value of each state. -/
def State.toNat : State → Nat
  | .STATE_INITIAL => 0
  | .STATE_HANDSHAKE => 1
  | .STATE_CONNECTED => 2
  | .STATE_WORLD_LOADING => 3
  | .STATE_IN_WORLD => 4
  | .STATE_DISCONNECTING => 5
  | .STATE_CLOSED => 6

/-- `IsAuthenticated() { return m_state >= STATE_CONNECTED; }` — enum
comparison is comparison of the underlying values. -/
def IsAuthenticated (s : State) : Bool :=
  decide (State.toNat .STATE_CONNECTED ≤ s.toNat)

/-- `IsInWorld() { return m_state >= STATE_IN_WORLD; }`. -/
def IsInWorld (s : State) : Bool :=
  decide (State.toNat .STATE_IN_WORLD ≤ s.toNat)

end GameSocket

/-! ## Spatial primitive (src/include/LocationVector.h)

The C++ fields are `double`; the claims about this class concern the
algebraic form of the operations, so the fields are modelled as real
numbers. -/

structure LocationVector where
  x : ℝ
  y : ℝ
  z : ℝ
  o : ℝ

namespace LocationVector

/-- `MoveForward(double distance)` —
`x += distance * std::cos(o); y += distance * std::sin(o);`. -/
noncomputable def MoveForward (v : LocationVector) (d : ℝ) : LocationVector :=
  { v with x := v.x + d * Real.cos v.o, y := v.y + d * Real.sin v.o }

end LocationVector

/-! ### Bit-level view of the `double` fields

`LocationVector::operator==` (LocationVector.h:126-128) compares the four
`double` fields with the C++ `==`, which is IEEE-754 binary64 equality.  To
examine that operator at the representation level, a second view models each
field as a 64-bit pattern (a `Nat` below 2⁶⁴: fraction in bits 0–51,
exponent in bits 52–62, sign in bit 63).  In binary64 every non-NaN value
has a unique encoding, so IEEE equality of two patterns holds exactly when
neither is a NaN and the patterns are identical or both encode a zero
(+0.0 and −0.0 differ only in the sign bit but compare equal). -/

/-- A pattern is a NaN iff its exponent field is all ones (2047) and its
fraction field is nonzero. -/
def isNaNBits (a : Nat) : Bool := decide (a / 2 ^ 52 % 2 ^ 11 = 2047 ∧ a % 2 ^ 52 ≠ 0)

/-- A pattern encodes +0.0 or −0.0 iff all bits below the sign bit are 0. -/
def isZeroBits (a : Nat) : Bool := decide (a % 2 ^ 63 = 0)

/-- IEEE-754 binary64 `==` on bit patterns: false if either operand is NaN,
true on identical patterns and on the two zeros. -/
def doubleEq (a b : Nat) : Bool :=
  if isNaNBits a || isNaNBits b then false
  else if a = b then true
  else isZeroBits a && isZeroBits b

/-- IEEE equality of two patterns, spelled out as a proposition: neither is
NaN, and the patterns are identical or both encode a zero. -/
def ieeeEq (a b : Nat) : Prop :=
  isNaNBits a = false ∧ isNaNBits b = false ∧
    (a = b ∨ (isZeroBits a = true ∧ isZeroBits b = true))

instance (a b : Nat) : Decidable (ieeeEq a b) := by
  unfold ieeeEq; infer_instance

/-- `LocationVector` at the representation level: the four `double` fields
as 64-bit patterns. -/
structure LocationVectorBits where
  x : Nat
  y : Nat
  z : Nat
  o : Nat
deriving DecidableEq, Repr

namespace LocationVectorBits

/-- `operator==(const LocationVector&)` —
`x == other.x && y == other.y && z == other.z && o == other.o`, each `==`
being IEEE-754 `double` equality. -/
def eqOp (v w : LocationVectorBits) : Bool :=
  doubleEq v.x w.x && doubleEq v.y w.y && doubleEq v.z w.z && doubleEq v.o w.o

end LocationVectorBits

/-! ## Reliable sequencing of the session transport

The sources under src/ hold only the `GameSocket` member declarations
(`m_nextSequence`, `m_expectedSequence`, `m_unacknowledgedPackets`,
`m_receivedPackets` in src/include/GameSocket.h); the sequencing logic itself
is absent, so it is modelled from the specification (§4.4 "Sequence spaces",
"Reliable send", "Inbound ordering & dedup"). -/

namespace Transport

/-- Modelled from the spec: the modular sequence comparator —
`a > b iff ((a − b) mod 2¹⁶) lies in [1, 2¹⁵)`, for 16-bit `a`, `b`
(65536 = 2¹⁶, 32768 = 2¹⁵). -/
def seqGreater (a b : Nat) : Prop :=
  1 ≤ (a + 65536 - b) % 65536 ∧ (a + 65536 - b) % 65536 < 32768

instance (a b : Nat) : Decidable (seqGreater a b) := by
  unfold seqGreater; infer_instance

/-- Modelled from the spec: the outbound sequence space — the 16-bit
`next_seq` counter (`m_nextSequence` in GameSocket.h). -/
structure SendState where
  nextSeq : Nat
deriving DecidableEq, Repr

/-- Modelled from the spec: "For a reliable payload, C4 assigns `next_seq`
... and emits the datagram" — returns the assigned sequence number and
advances the counter modulo 2¹⁶. -/
def sendReliable (st : SendState) : Nat × SendState :=
  (st.nextSeq, ⟨(st.nextSeq + 1) % 65536⟩)

/-- Modelled from the spec: the inbound side of one session — `expected_seq`
(`m_expectedSequence`), the buffer of ahead-of-sequence packets held while
waiting, and the list of payloads delivered, in order, to the player-session
layer (C6). -/
structure RecvState where
  expected : Nat
  buffer : List (Nat × List Nat)
  delivered : List (Nat × List Nat)
deriving DecidableEq, Repr

/-- Modelled from the spec: the fresh inbound state for initial
`expected_seq = e0`. -/
def initRecv (e0 : Nat) : RecvState := ⟨e0, [], []⟩

/-- Modelled from the spec: "deliver, advance `expected_seq`, then drain any
buffered s+1, s+2, … held while waiting" — repeatedly deliver the buffered
packet carrying the current `expected_seq`; fuel bounds the loop by the
buffer size. -/
def drain : Nat → RecvState → RecvState
  | 0, st => st
  | fuel + 1, st =>
    match st.buffer.lookup st.expected with
    | some p =>
        drain fuel
          { expected := (st.expected + 1) % 65536,
            buffer := st.buffer.filter (fun e => e.1 ≠ st.expected),
            delivered := st.delivered ++ [(st.expected, p)] }
    | none => st

/-- Modelled from the spec: inbound ordering & dedup for one reliable
datagram with sequence `s` and payload `p`, window `w`:
if `s = expected_seq` deliver, advance and drain; if `s` is ahead within `w`
buffer it; if behind within `w` it is a duplicate, drop the payload;
otherwise drop as out-of-window replay. -/
def recvStep (w : Nat) (st : RecvState) (s : Nat) (p : List Nat) : RecvState :=
  if s = st.expected then
    drain st.buffer.length
      { expected := (st.expected + 1) % 65536,
        buffer := st.buffer,
        delivered := st.delivered ++ [(s, p)] }
  else if seqGreater s st.expected ∧ (s + 65536 - st.expected) % 65536 < w then
    { st with buffer := (s, p) :: st.buffer }
  else st

/-- Modelled from the spec: process a trace of inbound reliable datagrams in
arrival order. -/
def processTrace (w : Nat) (st : RecvState) (msgs : List (Nat × List Nat)) :
    RecvState :=
  msgs.foldl (fun acc m => recvStep w acc m.1 m.2) st

/-- Modelled from the spec: the delivery invariant — the payloads handed to
the player-session layer carry exactly the consecutive sequence numbers
`e0, e0+1, …` modulo 2¹⁶, and `expected_seq` points one past the last
delivered one. -/
def RecvInv (e0 : Nat) (st : RecvState) : Prop :=
  ∃ n, st.delivered.map Prod.fst = (List.range n).map (fun i => (e0 + i) % 65536) ∧
       st.expected = (e0 + n) % 65536

end Transport

/-! ## Helper lemmas -/

theorem toLE_length (w v : Nat) : (toLE w v).length = w := by
  induction w generalizing v with
  | zero => rfl
  | succ w ih => simp [toLE, ih]

theorem fromLE_toLE (w v : Nat) (h : v < 256 ^ w) : fromLE (toLE w v) = v := by
  induction w generalizing v with
  | zero =>
    simp only [pow_zero, Nat.lt_one_iff] at h
    simp [toLE, fromLE, h]
  | succ w ih =>
    have hdiv : v / 256 < 256 ^ w := by
      apply Nat.div_lt_of_lt_mul
      rw [pow_succ] at h
      omega
    simp only [toLE, fromLE, ih (v / 256) hdiv]
    omega

theorem overwriteAt_take (buf data : List Nat) (pos : Nat)
    (h : pos ≤ buf.length) :
    (overwriteAt buf pos data).take pos = buf.take pos := by
  unfold overwriteAt
  rw [List.append_assoc, List.take_left']
  simpa using h

theorem overwriteAt_drop (buf data : List Nat) (pos : Nat)
    (h : pos ≤ buf.length) :
    (overwriteAt buf pos data).drop pos = data ++ buf.drop (pos + data.length) := by
  unfold overwriteAt
  rw [List.append_assoc, List.drop_left']
  simpa using h

theorem overwriteAt_length (buf data : List Nat) (pos : Nat)
    (h : pos ≤ buf.length) :
    (overwriteAt buf pos data).length = max buf.length (pos + data.length) := by
  simp only [overwriteAt, List.length_append, List.length_take, List.length_drop]
  omega

theorem writeBytes_rpos (b : ByteBuffer) (data : List Nat) :
    (b.writeBytes data).rpos = b.rpos := rfl

theorem writeBytes_wpos (b : ByteBuffer) (data : List Nat) :
    (b.writeBytes data).wpos = b.wpos + data.length := rfl

theorem writeBytes_buffer (b : ByteBuffer) (data : List Nat)
    (h : b.wpos ≤ b.buffer.length) :
    (b.writeBytes data).buffer =
      b.buffer.take b.wpos ++ data ++ b.buffer.drop (b.wpos + data.length) := by
  show overwriteAt
      (if b.wpos + data.length > b.buffer.length then
        b.buffer ++ List.replicate (b.wpos + data.length - b.buffer.length) 0
      else b.buffer) b.wpos data = _
  split
  case isTrue hgt =>
    unfold overwriteAt
    have h1 : (b.buffer ++
        List.replicate (b.wpos + data.length - b.buffer.length) 0).take b.wpos
        = b.buffer.take b.wpos := by
      rw [List.take_append_eq_append_take]
      have : b.wpos - b.buffer.length = 0 := by omega
      simp [this]
    have h2 : (b.buffer ++
        List.replicate (b.wpos + data.length - b.buffer.length) 0).drop
          (b.wpos + data.length) = [] := by
      apply List.drop_eq_nil_of_le
      simp only [List.length_append, List.length_replicate]
      omega
    have h3 : b.buffer.drop (b.wpos + data.length) = [] := by
      apply List.drop_eq_nil_of_le
      omega
    rw [h1, h2, h3]
  case isFalse => rfl

theorem getD_of_drop_cons (l : List Nat) (n c : Nat) (t : List Nat)
    (h : l.drop n = c :: t) : l.getD n 0 = c := by
  induction l generalizing n with
  | nil => simp at h
  | cons a l ih =>
    cases n with
    | zero => simp only [List.drop_zero, List.cons.injEq] at h; simp [h.1]
    | succ n =>
      simp only [List.drop_succ_cons] at h
      simpa using ih n h

theorem readStringAux_spec (s : List Nat) (fuel : Nat) (b : ByteBuffer)
    (rest : List Nat)
    (hfuel : s.length + 1 ≤ fuel)
    (hw : b.rpos + s.length < b.wpos)
    (hlen : b.rpos + s.length + 1 ≤ b.buffer.length)
    (hdrop : b.buffer.drop b.rpos = s ++ 0 :: rest)
    (hnz : ∀ c ∈ s, c ≠ 0) :
    ByteBuffer.readStringAux fuel b =
      some (s, { b with rpos := b.rpos + (s.length + 1) }) := by
  induction s generalizing fuel b rest with
  | nil =>
    obtain ⟨f, rfl⟩ : ∃ f, fuel = f + 1 := ⟨fuel - 1, by omega⟩
    have h0 : b.buffer.getD b.rpos 0 = 0 := getD_of_drop_cons _ _ _ _ hdrop
    unfold ByteBuffer.readStringAux
    rw [if_pos (by simp only [List.length_nil] at hw; omega),
      if_pos (by omega), if_pos h0]
    simp
  | cons c s ih =>
    obtain ⟨f, rfl⟩ : ∃ f, fuel = f + 1 := ⟨fuel - 1, by omega⟩
    have hdrop0 : b.buffer.drop b.rpos = c :: (s ++ 0 :: rest) := by
      simpa using hdrop
    have hc : b.buffer.getD b.rpos 0 = c := getD_of_drop_cons _ _ _ _ hdrop0
    have hcne : c ≠ 0 := hnz c (List.mem_cons_self _ _)
    have hdrop1 : b.buffer.drop (b.rpos + 1) = s ++ 0 :: rest := by
      rw [← List.tail_drop, hdrop0]
      rfl
    unfold ByteBuffer.readStringAux
    rw [if_pos (by simp only [List.length_cons] at hw; omega),
      if_pos (by simp only [List.length_cons] at hlen; omega)]
    rw [if_neg (by rw [hc]; exact hcne)]
    rw [ih f { b with rpos := b.rpos + 1 } rest
      (by simp only [List.length_cons] at hfuel; omega)
      (by simp only [List.length_cons] at hw ⊢; omega)
      (by simp only [List.length_cons] at hlen ⊢; omega)
      hdrop1
      (fun x hx => hnz x (List.mem_cons_of_mem _ hx))]
    simp only [Option.map_some', Option.some.injEq, Prod.mk.injEq]
    refine ⟨by rw [hc], ?_⟩
    simp only [List.length_cons]
    congr 1
    omega

/-! ## Claim theorems -/

/-- C1 (amended): with the maintained cursor bounds `wpos ≤ size` and
`rpos ≤ size`, reading `w` bytes succeeds and advances the read cursor by
exactly `w` whenever at least `w` unread bytes remain; but the bound the
code actually checks is the underlying buffer size, so the read fails
(the `assert`, modelled as `none`, with no state mutated) exactly when
`rpos + w` exceeds the buffer size — not when fewer than `w` bytes remain
before the write cursor. -/
theorem c1_read_cursor_advance (b : ByteBuffer) (w : Nat)
    (hw : b.wpos ≤ b.buffer.length) (hr : b.rpos ≤ b.buffer.length) :
    (w ≤ b.remaining →
      b.readBytes w =
        some ((b.buffer.drop b.rpos).take w, { b with rpos := b.rpos + w })) ∧
    (b.buffer.length < b.rpos + w → b.readBytes w = none) := by
  unfold ByteBuffer.remaining ByteBuffer.readBytes
  constructor
  · intro hrem
    rw [if_pos]
    split at hrem <;> omega
  · intro hlen
    rw [if_neg]
    omega

/-- C1 counterexample: `ByteBuffer(4)` resizes the storage to 4 bytes with
both cursors at 0, so zero unread bytes remain between the read and write
cursors, yet reading a width-1 primitive succeeds (advancing the read
cursor) instead of failing as the claim requires. -/
theorem c1_refuted :
    (ByteBuffer.ofSize 4).remaining < 1 ∧
    (ByteBuffer.ofSize 4).readBytes 1 =
      some ([0], { ByteBuffer.ofSize 4 with rpos := 1 }) := by decide

/-- C1 witness: a concrete buffer holding 3 bytes with 2 unread. -/
theorem c1_read_cursor_advance_witness :
    ByteBuffer.readBytes ⟨0, 2, [7, 8, 9]⟩ 2 =
      some ((([7, 8, 9] : List Nat).drop 0).take 2,
        { (⟨0, 2, [7, 8, 9]⟩ : ByteBuffer) with rpos := 0 + 2 }) :=
  (c1_read_cursor_advance ⟨0, 2, [7, 8, 9]⟩ 2 (by decide) (by decide)).1 (by decide)

/-- C2 (amended): on a buffer whose cursors are aligned (`rpos = wpos`) and
in bounds, writing a primitive of width `w` whose value fits in `w` bytes
and reading it back yields the value again; and writing a string whose
bytes are nonzero characters and reading it back yields the string again.
(A string containing an embedded NUL byte reads back truncated at the
first NUL, so the NUL-freedom condition is necessary.) -/
theorem c2_roundtrip (b : ByteBuffer) :
    (∀ w v : Nat, b.rpos = b.wpos → b.wpos ≤ b.buffer.length →
      v < 256 ^ w → ((b.writeT w v).readT w).map Prod.fst = some v) ∧
    (∀ s : List Nat, b.rpos = b.wpos → b.wpos ≤ b.buffer.length →
      (∀ c ∈ s, c < 256 ∧ c ≠ 0) →
      (b.writeString s).readString.map Prod.fst = some s) := by
  constructor
  · intro w v hrw hwf hv
    have hlen : (toLE w v).length = w := toLE_length w v
    have hbuf : (b.writeT w v).buffer =
        b.buffer.take b.wpos ++ toLE w v ++ b.buffer.drop (b.wpos + w) := by
      rw [ByteBuffer.writeT, writeBytes_buffer b _ hwf, hlen]
    have htk : (b.buffer.take b.wpos).length = b.wpos := by
      simp only [List.length_take]
      omega
    have hblen : b.wpos + w ≤ (b.writeT w v).buffer.length := by
      rw [hbuf]
      simp only [List.length_append, hlen, htk]
      omega
    have hrp : (b.writeT w v).rpos = b.wpos := by
      rw [ByteBuffer.writeT, writeBytes_rpos, hrw]
    unfold ByteBuffer.readT ByteBuffer.readBytes
    rw [hrp, if_pos (by omega)]
    have hdp : ((b.writeT w v).buffer.drop b.wpos).take w = toLE w v := by
      rw [hbuf, List.append_assoc, List.drop_left' htk, List.take_left' hlen]
    simp only [Option.map_some', hdp, fromLE_toLE w v hv]
  · intro s hrw hwf hnz
    have hnz0 : ∀ c ∈ s, c ≠ 0 := fun c hc => (hnz c hc).2
    have htk : (b.buffer.take b.wpos).length = b.wpos := by
      simp only [List.length_take]
      omega
    unfold ByteBuffer.writeString
    by_cases hs : s = []
    · subst hs
      rw [if_pos rfl]
      have hbuf : (b.writeBytes [0]).buffer =
          b.buffer.take b.wpos ++ [0] ++ b.buffer.drop (b.wpos + 1) := by
        have h0 := writeBytes_buffer b [0] hwf
        simpa using h0
      have hrp1 : (b.writeBytes [0]).rpos = b.wpos := by
        rw [writeBytes_rpos, hrw]
      have hwp1 : (b.writeBytes [0]).wpos = b.wpos + 1 := by
        rw [writeBytes_wpos]
        simp
      have hlen1 : b.wpos + 1 ≤ (b.writeBytes [0]).buffer.length := by
        rw [hbuf]
        simp only [List.length_append, htk, List.length_cons, List.length_nil]
        omega
      have hfuel : (b.writeBytes [0]).wpos - (b.writeBytes [0]).rpos = 1 := by
        rw [hrp1, hwp1]
        omega
      rw [ByteBuffer.readString, hfuel,
        readStringAux_spec [] 1 (b.writeBytes [0]) (b.buffer.drop (b.wpos + 1))
          (by simp)
          (by rw [hrp1, hwp1]; simp)
          (by rw [hrp1]; simpa using hlen1)
          (by rw [hrp1, hbuf, List.append_assoc, List.drop_left' htk]
              rfl)
          (by intro c hc; simp at hc)]
      rfl
    · rw [if_neg hs]
      have hwf1 : (b.writeBytes s).wpos ≤ (b.writeBytes s).buffer.length := by
        rw [writeBytes_wpos, writeBytes_buffer b s hwf]
        simp only [List.length_append, htk, List.length_drop]
        omega
      have htk1 : ((b.writeBytes s).buffer.take (b.wpos + s.length)).length
          = b.wpos + s.length := by
        simp only [List.length_take]
        have := hwf1
        rw [writeBytes_wpos] at this
        omega
      have hpref : (b.writeBytes s).buffer.take (b.wpos + s.length)
          = b.buffer.take b.wpos ++ s := by
        rw [writeBytes_buffer b s hwf, List.append_assoc, ← List.append_assoc,
          List.take_left']
        simp [htk]
      have hbuf2 : ((b.writeBytes s).writeBytes [0]).buffer =
          (b.buffer.take b.wpos ++ s) ++ [0] ++
            (b.writeBytes s).buffer.drop (b.wpos + s.length + 1) := by
        have h0 := writeBytes_buffer (b.writeBytes s) [0] hwf1
        rw [writeBytes_wpos] at h0
        simp only [List.length_cons, List.length_nil] at h0
        rw [h0, hpref]
      have hrp2 : ((b.writeBytes s).writeBytes [0]).rpos = b.wpos := by
        rw [writeBytes_rpos, writeBytes_rpos, hrw]
      have hwp2 : ((b.writeBytes s).writeBytes [0]).wpos
          = b.wpos + s.length + 1 := by
        rw [writeBytes_wpos, writeBytes_wpos]
        simp
      have hfuel2 : ((b.writeBytes s).writeBytes [0]).wpos
          - ((b.writeBytes s).writeBytes [0]).rpos = s.length + 1 := by
        rw [hrp2, hwp2]
        omega
      rw [ByteBuffer.readString, hfuel2,
        readStringAux_spec s (s.length + 1) ((b.writeBytes s).writeBytes [0])
          ((b.writeBytes s).buffer.drop (b.wpos + s.length + 1))
          (by omega)
          (by rw [hrp2, hwp2]; omega)
          (by rw [hrp2, hbuf2]
              simp only [List.length_append, List.length_cons, List.length_nil,
                htk, List.length_take]
              omega)
          (by rw [hrp2, hbuf2, List.append_assoc, List.append_assoc,
                List.drop_left' htk]
              rfl)
          hnz0]
      rfl

/-- C2 counterexample: the string 'a\x00b' (bytes 97, 0, 98) written into a
fresh buffer reads back as just 'a' — `readString` stops at the embedded
NUL — so the round trip fails for strings containing a NUL byte. -/
theorem c2_refuted :
    ¬((ByteBuffer.empty.writeString [97, 0, 98]).readString.map Prod.fst
        = some [97, 0, 98]) := by decide

/-- C2 witness: the 2-byte value 513 = 0x0201 and the string 'hi'
round-trip through a fresh buffer. -/
theorem c2_roundtrip_witness :
    ((ByteBuffer.empty.writeT 2 513).readT 2).map Prod.fst = some 513 ∧
    (ByteBuffer.empty.writeString [104, 105]).readString.map Prod.fst
      = some [104, 105] :=
  ⟨(c2_roundtrip ByteBuffer.empty).1 2 513 rfl (by decide) (by decide),
   (c2_roundtrip ByteBuffer.empty).2 [104, 105] rfl (by decide) (by decide)⟩

/-- C6: when `pos + w ≤ size`, `put(pos, value)` succeeds and overwrites
exactly the `w` bytes at `pos` with the value's little-endian
representation, leaving the read cursor, the write cursor, the buffer size,
and every byte before `pos` and from `pos + w` on unchanged. -/
theorem c6_put_frame (b : ByteBuffer) (pos w v : Nat)
    (h : pos + w ≤ b.buffer.length) :
    ∃ b', b.putT pos w v = some b' ∧
      b'.rpos = b.rpos ∧
      b'.wpos = b.wpos ∧
      b'.buffer.length = b.buffer.length ∧
      (b'.buffer.drop pos).take w = toLE w v ∧
      b'.buffer.take pos = b.buffer.take pos ∧
      b'.buffer.drop (pos + w) = b.buffer.drop (pos + w) := by
  have hlen : (toLE w v).length = w := toLE_length w v
  have hpos : pos ≤ b.buffer.length := by omega
  refine ⟨{ b with buffer := overwriteAt b.buffer pos (toLE w v) }, ?_, rfl, rfl,
    ?_, ?_, ?_, ?_⟩
  · unfold ByteBuffer.putT ByteBuffer.put
    rw [if_pos (by omega)]
  · rw [overwriteAt_length _ _ _ hpos, hlen]
    omega
  · rw [overwriteAt_drop _ _ _ hpos, hlen, List.take_left' hlen]
  · exact overwriteAt_take _ _ _ hpos
  · show (overwriteAt b.buffer pos (toLE w v)).drop (pos + w) = _
    rw [← List.drop_drop, overwriteAt_drop _ _ _ hpos, hlen,
      List.drop_left' hlen]

/-- C6 witness: back-patching 2 bytes at position 1 of a 4-byte buffer. -/
theorem c6_put_frame_witness :
    ∃ b', ByteBuffer.putT ⟨0, 4, [1, 2, 3, 4]⟩ 1 2 513 = some b' ∧
      b'.rpos = (⟨0, 4, [1, 2, 3, 4]⟩ : ByteBuffer).rpos ∧
      b'.wpos = (⟨0, 4, [1, 2, 3, 4]⟩ : ByteBuffer).wpos ∧
      b'.buffer.length = (⟨0, 4, [1, 2, 3, 4]⟩ : ByteBuffer).buffer.length ∧
      (b'.buffer.drop 1).take 2 = toLE 2 513 ∧
      b'.buffer.take 1 = (⟨0, 4, [1, 2, 3, 4]⟩ : ByteBuffer).buffer.take 1 ∧
      b'.buffer.drop (1 + 2) = (⟨0, 4, [1, 2, 3, 4]⟩ : ByteBuffer).buffer.drop (1 + 2) :=
  c6_put_frame ⟨0, 4, [1, 2, 3, 4]⟩ 1 2 513 (by decide)

/-- C3: `AuthServer::VerifyWith1024Bit` returns `true` on every message and
signature; verification never rejects any input. -/
theorem c3_verify_always_true (m s : List Nat) :
    AuthServer.VerifyWith1024Bit m s = true := rfl

/-- C4: `AuthServer::Encrypt` and `AuthServer::Decrypt` are both the
identity on byte strings, so decryption of the encryption gives the input
back and the ciphertext is byte-identical to the plaintext. -/
theorem c4_encrypt_decrypt_identity (s : List Nat) :
    AuthServer.Encrypt s = s ∧ AuthServer.Decrypt s = s ∧
    AuthServer.Decrypt (AuthServer.Encrypt s) = s := ⟨rfl, rfl, rfl⟩

/-- C7: `MoveForward(d)` adds `d·cos o` to `x` and `d·sin o` to `y` and
leaves `z` and `o` unchanged. -/
theorem c7_move_forward (v : LocationVector) (d : ℝ) :
    (v.MoveForward d).x = v.x + d * Real.cos v.o ∧
    (v.MoveForward d).y = v.y + d * Real.sin v.o ∧
    (v.MoveForward d).z = v.z ∧
    (v.MoveForward d).o = v.o := ⟨rfl, rfl, rfl, rfl⟩

theorem doubleEq_iff (a b : Nat) : doubleEq a b = true ↔ ieeeEq a b := by
  unfold doubleEq ieeeEq
  cases hna : isNaNBits a <;> cases hnb : isNaNBits b <;>
    by_cases hab : a = b <;> simp [hna, hnb, hab]

/-- C8 (amended): `operator==` returns true iff on each of the four fields
the two bit patterns are IEEE-754-equal — neither is a NaN, and the
patterns are identical or both encode a zero.  Equality is therefore not
exact bitwise: +0.0 and −0.0 compare equal with different representations,
and a NaN field makes a vector compare unequal even to its bit-identical
self. -/
theorem c8_ieee_equality (v w : LocationVectorBits) :
    LocationVectorBits.eqOp v w = true ↔
      (ieeeEq v.x w.x ∧ ieeeEq v.y w.y ∧ ieeeEq v.z w.z ∧ ieeeEq v.o w.o) := by
  unfold LocationVectorBits.eqOp
  simp only [Bool.and_eq_true, doubleEq_iff, and_assoc]

/-- C8 counterexample: both directions of the claimed iff fail.  The vector
with x = +0.0 (pattern 0) compares equal to the one with x = −0.0 (pattern
2⁶³) although they are not bitwise identical; and the vector whose x is a
NaN (pattern 0x7FF8000000000000) compares unequal to its bitwise-identical
self. -/
theorem c8_refuted :
    (LocationVectorBits.eqOp ⟨0, 0, 0, 0⟩ ⟨0x8000000000000000, 0, 0, 0⟩ = true ∧
      (⟨0, 0, 0, 0⟩ : LocationVectorBits) ≠ ⟨0x8000000000000000, 0, 0, 0⟩) ∧
    (LocationVectorBits.eqOp ⟨0x7FF8000000000000, 0, 0, 0⟩
        ⟨0x7FF8000000000000, 0, 0, 0⟩ = false ∧
      (⟨0x7FF8000000000000, 0, 0, 0⟩ : LocationVectorBits)
        = ⟨0x7FF8000000000000, 0, 0, 0⟩) := by decide

/-- C9: the byte-keyed player-command identifiers have exactly the values of
the specification's table, and every short-keyed command identifier is at
least 0x0100. -/
theorem c9_command_ids :
    PlayerCommandTypes.CMD_READY_FOR_SPAWN = 0x01 ∧
    PlayerCommandTypes.CMD_CHAT = 0x02 ∧
    PlayerCommandTypes.CMD_WHISPER = 0x03 ∧
    PlayerCommandTypes.CMD_STOP_ANIMATION = 0x04 ∧
    PlayerCommandTypes.CMD_START_ANIMATION = 0x05 ∧
    PlayerCommandTypes.CMD_CHANGE_MOOD = 0x06 ∧
    PlayerCommandTypes.CMD_PERFORM_EMOTE = 0x07 ∧
    PlayerCommandTypes.CMD_DYNAMIC_OBJ_INTERACTION = 0x08 ∧
    PlayerCommandTypes.CMD_STATIC_OBJ_INTERACTION = 0x09 ∧
    PlayerCommandTypes.CMD_JUMP = 0x0A ∧
    PlayerCommandTypes.CMD_REGION_LOADED = 0x0B ∧
    PlayerCommandTypes.CMD_READY_FOR_WORLD_CHANGE = 0x0C ∧
    PlayerCommandTypes.CMD_WHO = 0x0D ∧
    PlayerCommandTypes.CMD_WHERE_AM_I = 0x0E ∧
    PlayerCommandTypes.CMD_GET_PLAYER_DETAILS = 0x0F ∧
    PlayerCommandTypes.CMD_GET_BACKGROUND = 0x10 ∧
    PlayerCommandTypes.CMD_SET_BACKGROUND = 0x11 ∧
    PlayerCommandTypes.CMD_HARDLINE_TELEPORT = 0x12 ∧
    PlayerCommandTypes.CMD_OBJECT_SELECTED = 0x13 ∧
    PlayerCommandTypes.CMD_JACKOUT_REQUEST = 0x14 ∧
    PlayerCommandTypes.CMD_JACKOUT_FINISHED = 0x15 ∧
    ∀ c ∈ PlayerCommandTypes.shortCommands, 0x0100 ≤ c := by decide

theorem drain_inv (e0 fuel : Nat) (st : Transport.RecvState)
    (h : Transport.RecvInv e0 st) :
    Transport.RecvInv e0 (Transport.drain fuel st) := by
  induction fuel generalizing st with
  | zero => exact h
  | succ fuel ih =>
    unfold Transport.drain
    cases hl : st.buffer.lookup st.expected with
    | none => exact h
    | some p =>
      apply ih
      obtain ⟨n, hdel, hexp⟩ := h
      refine ⟨n + 1, ?_, ?_⟩
      · show (st.delivered ++ [(st.expected, p)]).map Prod.fst = _
        rw [List.map_append, hdel, List.range_succ, List.map_append]
        simp [hexp]
      · show (st.expected + 1) % 65536 = (e0 + (n + 1)) % 65536
        rw [hexp]
        omega

theorem recvStep_inv (e0 w : Nat) (st : Transport.RecvState) (s : Nat)
    (p : List Nat) (h : Transport.RecvInv e0 st) :
    Transport.RecvInv e0 (Transport.recvStep w st s p) := by
  unfold Transport.recvStep
  split
  case isTrue heq =>
    apply drain_inv
    obtain ⟨n, hdel, hexp⟩ := h
    refine ⟨n + 1, ?_, ?_⟩
    · show (st.delivered ++ [(s, p)]).map Prod.fst = _
      rw [List.map_append, hdel, List.range_succ, List.map_append]
      simp [heq, hexp]
    · show (st.expected + 1) % 65536 = (e0 + (n + 1)) % 65536
      rw [hexp]
      omega
  case isFalse =>
    split
    · obtain ⟨n, hdel, hexp⟩ := h
      exact ⟨n, hdel, hexp⟩
    · exact h

theorem processTrace_inv (e0 w : Nat) (msgs : List (Nat × List Nat))
    (st : Transport.RecvState) (h : Transport.RecvInv e0 st) :
    Transport.RecvInv e0 (Transport.processTrace w st msgs) := by
  induction msgs generalizing st with
  | nil => exact h
  | cons m msgs ih => exact ih _ (recvStep_inv e0 w st m.1 m.2 h)

/-- C5: in the transport model taken from the specification, outbound
reliable sequence numbers are assigned from `next_seq` and each subsequent
assignment is greater than the previous one under the modular comparator
`a > b iff ((a − b) mod 2¹⁶) ∈ [1, 2¹⁵)` — including across the
65535 → 0 wrap — and, for every trace of inbound reliable datagrams, the
messages delivered to the player-session layer carry exactly the
consecutive sequence numbers `e0, e0+1, …` modulo 2¹⁶: in sequence order,
with no gaps and no duplicates. -/
theorem c5_sequencing :
    (∀ st : Transport.SendState, st.nextSeq < 65536 →
      (Transport.sendReliable st).1 = st.nextSeq ∧
      Transport.seqGreater
        ((Transport.sendReliable (Transport.sendReliable st).2).1)
        ((Transport.sendReliable st).1)) ∧
    (∀ (w e0 : Nat) (msgs : List (Nat × List Nat)), e0 < 65536 →
      ∃ n, (Transport.processTrace w (Transport.initRecv e0) msgs).delivered.map
            Prod.fst
          = (List.range n).map (fun i => (e0 + i) % 65536)) := by
  constructor
  · intro st h
    refine ⟨rfl, ?_⟩
    show Transport.seqGreater ((st.nextSeq + 1) % 65536) st.nextSeq
    unfold Transport.seqGreater
    omega
  · intro w e0 msgs he
    have h0 : Transport.RecvInv e0 (Transport.initRecv e0) :=
      ⟨0, by simp [Transport.initRecv],
        by show e0 = (e0 + 0) % 65536; omega⟩
    obtain ⟨n, hdel, _⟩ := processTrace_inv e0 w msgs _ h0
    exact ⟨n, hdel⟩

/-- C5 witness: a session whose outbound counter sits at the wrap boundary
65535, and an inbound trace that arrives out of order across the wrap
(sequence 0 first, then 65535, then a duplicate 0). -/
theorem c5_sequencing_witness :
    ((Transport.sendReliable ⟨65535⟩).1 = 65535 ∧
      Transport.seqGreater
        ((Transport.sendReliable (Transport.sendReliable ⟨65535⟩).2).1)
        ((Transport.sendReliable ⟨65535⟩).1)) ∧
    ∃ n, (Transport.processTrace 64 (Transport.initRecv 65535)
          [(0, [1]), (65535, [2]), (0, [3])]).delivered.map Prod.fst
        = (List.range n).map (fun i => (65535 + i) % 65536) :=
  ⟨c5_sequencing.1 ⟨65535⟩ (by decide),
   c5_sequencing.2 64 65535 [(0, [1]), (65535, [2]), (0, [3])] (by decide)⟩

/-- C10: `IsAuthenticated` holds exactly on the states with enum value at
least `STATE_CONNECTED` (2) and `IsInWorld` exactly on those at least
`STATE_IN_WORLD` (4); in particular `STATE_DISCONNECTING` and
`STATE_CLOSED` report themselves as both authenticated and in-world. -/
theorem c10_state_predicates :
    (∀ s : GameSocket.State,
      GameSocket.IsAuthenticated s = true ↔ 2 ≤ s.toNat) ∧
    (∀ s : GameSocket.State,
      GameSocket.IsInWorld s = true ↔ 4 ≤ s.toNat) ∧
    GameSocket.IsAuthenticated .STATE_DISCONNECTING = true ∧
    GameSocket.IsInWorld .STATE_DISCONNECTING = true ∧
    GameSocket.IsAuthenticated .STATE_CLOSED = true ∧
    GameSocket.IsInWorld .STATE_CLOSED = true := by
  refine ⟨fun s => ?_, fun s => ?_, by decide, by decide, by decide, by decide⟩
  · cases s <;> decide
  · cases s <;> decide

end MxoEmu
